import Mathlib

/-!
Verification of the CS_Agent streaming backend.

This file shallowly embeds the chat-streaming core of the repository:
  * `backend/app/services/streamer.py` — `_extract_text_from_part` and
    `request_stream_sync` (the upstream client / chunk normalizer),
  * `backend/app/routers/ws.py` — the `ws_chat` connection handler with its
    per-connection conversation history,
  * `backend/server.py` — `_call_sync_with_timeout_and_retries` (the retrying
    fallback wrapper of the older monolithic server),
and proves/refutes the frozen claims about the outbound event protocol, the
history invariants and the error handling.

Python dynamic values are embedded as the JSON-like type `JVal`; Python
truthiness is the function `truthy`; `dict.get(k)` (default `None`) is
`pyGet`.  Network and transport effects are embedded as an explicit
environment (`UpEnv`) describing what the upstream would answer; the code is
then a pure function from that environment to the emitted event list plus a
flag recording whether the Python function would raise an uncaught exception.
-/

/-- A Python/JSON value as manipulated by the backend: `None`, booleans,
integers, strings, lists and dicts (dicts as association lists with the
first binding of a key the visible one, matching unique-key JSON objects). -/
inductive JVal where
  | null
  | bool (b : Bool)
  | num (n : Int)
  | str (s : String)
  | arr (elems : List JVal)
  | obj (fields : List (String × JVal))
deriving Repr

/-- Python `v == "lit"` for a string literal: true exactly when `v` is that
string (no cross-type equality involving strings in Python). -/
def isStrEq (v : JVal) (s : String) : Bool :=
  match v with
  | .str t => t = s
  | _ => false

/-- Python `v is True`: identity with the singleton `True`. -/
def isTrue : JVal → Bool
  | .bool b => b
  | _ => false

/-- Lookup of a key in a dict's association list. -/
def lookupField : List (String × JVal) → String → Option JVal
  | [], _ => none
  | (k, v) :: rest, key => if k = key then some v else lookupField rest key

/-- `d.get(k)` restricted to dicts: `some v` when the key is present. -/
def JVal.get? (j : JVal) (k : String) : Option JVal :=
  match j with
  | .obj fs => lookupField fs k
  | _ => none

/-- Is the value a Python `dict` (`isinstance(x, dict)`)? -/
def JVal.isObj : JVal → Bool
  | .obj _ => true
  | _ => false

/-- Python `d.get(k)`: the stored value, or `None` when absent.  Only used at
points where the source has established the receiver is a dict. -/
def pyGet (j : JVal) (k : String) : JVal :=
  (j.get? k).getD .null

/-- Python truthiness of an embedded value. -/
def truthy : JVal → Bool
  | .null => false
  | .bool b => b
  | .num n => n != 0
  | .str s => s != ""
  | .arr xs => !xs.isEmpty
  | .obj fs => !fs.isEmpty

/-- `isinstance(v, str) and v != ""`: the string when it applies. -/
def strNonempty : JVal → Option String
  | .str s => if s = "" then none else some s
  | _ => none

/-! ## `_extract_text_from_part` (streamer.py lines 26–64) -/

/-- The flat scalar keys tried in order by `_extract_text_from_part`. -/
def flatKeys : List String := ["response", "response_text", "text", "output", "content"]

/-- The `for key in (...)` loop over flat scalar fields: first key whose value
is a non-empty string. -/
def firstFlat (part : JVal) : List String → Option String
  | [] => none
  | k :: ks =>
    match strNonempty (pyGet part k) with
    | some s => some s
    | none => firstFlat part ks

/-- One iteration of the `for c in choices` loop: `delta = c.get("delta") or
\x7b\x7d`; `cont = delta.get("content") or delta.get("text")`; a non-empty string
`cont` wins, else that same choice's `text` field. Non-dict choices are
skipped (`continue`). -/
def choiceText (c : JVal) : Option String :=
  if c.isObj then
    let deltaRaw := pyGet c "delta"
    let delta := if truthy deltaRaw then deltaRaw else .obj []
    let fromDelta :=
      if delta.isObj then
        let cont := if truthy (pyGet delta "content") then pyGet delta "content" else pyGet delta "text"
        strNonempty cont
      else none
    match fromDelta with
    | some s => some s
    | none => strNonempty (pyGet c "text")
  else none

/-- The whole `choices` loop: first choice that yields text wins. -/
def scanChoices : List JVal → Option String
  | [] => none
  | c :: cs =>
    match choiceText c with
    | some s => some s
    | none => scanChoices cs

/-- `_extract_text_from_part(part)`: `message.content` first, then the flat
scalar fields in `flatKeys` order, then the `choices` scan, else `None`.
The argument is a dict at every (non-raising) call site of the source. -/
def extractTextFromPart (part : JVal) : Option String :=
  let fromMessage :=
    match part.get? "message" with
    | some m => if m.isObj then strNonempty (pyGet m "content") else none
    | none => none
  match fromMessage with
  | some s => some s
  | none =>
    match firstFlat part flatKeys with
    | some s => some s
    | none =>
      match part.get? "choices" with
      | some (.arr cs) => scanChoices cs
      | _ => none

/-! ## Events delivered to `on_chunk`

`request_stream_sync` reports through its callback dicts
`\x7b"type": "delta", "text": t\x7d`, `\x7b"type": "done"\x7d` and
`\x7b"type": "error", "error": m\x7d`; we embed them as a tagged type.  The
`text` of a delta is a `JVal` because the non-streaming fallback can emit
non-string slices (Python list slices) — the streaming path always emits
strings. -/
inductive Ev where
  | delta (text : JVal)
  | done
  | error (msg : String)
deriving Repr

def Ev.isDelta : Ev → Bool
  | .delta _ => true
  | _ => false

def Ev.isTerminal : Ev → Bool
  | .done => true
  | .error _ => true
  | _ => false

/-- The outbound-protocol shape: zero or more deltas followed by exactly one
terminal event (so in particular never zero terminals and never two). -/
def goodSeq : List Ev → Bool
  | [] => false
  | [e] => e.isTerminal
  | e :: rest => e.isDelta && goodSeq rest

/-! ## `json.dumps` (used by the non-streaming fallback, streamer.py line 197)

Embedded with Python's default separators (`", "` and `": "`) and
`ensure_ascii=False`; escaping of quotes and backslashes is modelled, the
escaping of control characters is elided (no claim depends on it). -/

def escChar (c : Char) : String :=
  if c = '"' then "\\\"" else if c = '\\' then "\\\\" else String.singleton c

def jstr (s : String) : String :=
  "\"" ++ String.join (s.data.map escChar) ++ "\""

mutual

def jdump : JVal → String
  | .null => "null"
  | .bool true => "true"
  | .bool false => "false"
  | .num n => toString n
  | .str s => jstr s
  | .arr xs => "[" ++ jdumpArr xs ++ "]"
  | .obj fs => "\x7b" ++ jdumpObj fs ++ "\x7d"

def jdumpArr : List JVal → String
  | [] => ""
  | [x] => jdump x
  | x :: xs => jdump x ++ ", " ++ jdumpArr xs

def jdumpObj : List (String × JVal) → String
  | [] => ""
  | [(k, v)] => jstr k ++ ": " ++ jdump v
  | (k, v) :: fs => jstr k ++ ": " ++ jdump v ++ ", " ++ jdumpObj fs

end

/-! ## The streaming read loop (streamer.py lines 115–158)

One upstream line is embedded after transport framing: `data` is the line
after UTF-8 decode, `strip()` and removal of a leading `"data:"` marker
(so it is already whitespace-trimmed), and `parse` is the outcome of
`json.loads(data)` — `none` when parsing raises.  Every concrete line the
source can read maps to exactly one such pair. -/
structure RawLine where
  data : String
  parse : Option JVal
deriving Repr

/-- Outcome of the body of the `for raw in resp.iter_lines()` loop for one
line: continue iterating, return after emitting a terminal, or raise (the
source raises `AttributeError` at `part.get` when `json.loads` produced a
non-dict). -/
inductive LineOut where
  | cont (evs : List Ev)
  | fin (evs : List Ev)
  | raised (evs : List Ev)
deriving Repr

/-- One iteration of the line loop (streamer.py lines 115–155). -/
def processLine (l : RawLine) : LineOut :=
  if l.data = "" then .cont []
  else if l.data = "[DONE]" then .fin [.done]
  else
    match l.parse with
    | none => .cont [.delta (.str l.data)]
    | some part =>
      if part.isObj then
        if isTrue (pyGet part "done") then
          match extractTextFromPart part with
          | some t => .fin [.delta (.str t), .done]
          | none => .fin [.done]
        else
          match extractTextFromPart part with
          | some t => .cont [.delta (.str t)]
          | none => .cont []
      else .raised []

/-- The whole line loop over the lines the upstream delivered before the
iterator ended (or before it raised — see `StreamResult`). -/
def processLines : List RawLine → LineOut
  | [] => .cont []
  | l :: ls =>
    match processLine l with
    | .cont evs =>
      (match processLines ls with
       | .cont evs2 => .cont (evs ++ evs2)
       | .fin evs2 => .fin (evs ++ evs2)
       | .raised evs2 => .raised (evs ++ evs2))
    | .fin evs => .fin evs
    | .raised evs => .raised evs

/-! ## The non-streaming fallback (streamer.py lines 160–209) -/

/-- `CHUNK_SIZE` (streamer.py line 17). -/
def CHUNK_SIZE : Nat := 80

/-- Outcome of one `client.post(ENDPOINT, ..., stream=False)` attempt:
either the call raises (carrying the exception text interpolated into the
error message), or a response arrives with a status code, its `.text`, and
the outcome of `.json()` (`none` when decoding raises). -/
inductive PostResult where
  | raised (msg : String)
  | resp (status : Nat) (bodyText : String) (parse : Option JVal)

/-- `text[i : i + CHUNK_SIZE]` slicing loop, on a list of elements
(characters of a string, or items of a Python list). -/
def chunksAux (n : Nat) : Nat → List α → List (List α)
  | 0, _ => []
  | _, [] => []
  | fuel + 1, xs => xs.take n :: chunksAux n fuel (xs.drop n)

def chunks (n : Nat) (xs : List α) : List (List α) :=
  chunksAux n xs.length xs

/-- `for i in range(0, len(text), CHUNK_SIZE): on_chunk(delta text[i:i+CHUNK_SIZE])`.
Defined (`some` deltas) exactly when Python's `len`/slicing succeed: on
strings and lists.  On any other truthy value the loop raises
(`len` of an int/bool raises `TypeError`; slicing a dict raises before the
first callback), yielding `none` with no delta emitted. -/
def emitChunks : JVal → Option (List Ev)
  | .str s => some ((chunks CHUNK_SIZE s.data).map (fun cs => .delta (.str (String.mk cs))))
  | .arr xs => some ((chunks CHUNK_SIZE xs).map (fun c => .delta (.arr c)))
  | _ => none

/-- The `or`-chain `j.get("response") or j.get("text") or j.get("output") or
j.get("content") or None`. -/
def firstTruthyJ : List JVal → JVal
  | [] => .null
  | v :: vs => if truthy v then v else firstTruthyJ vs

/-- The text the fallback extracts from a successfully parsed 200 body
(streamer.py lines 181–199): `message.content` when the body is a dict with
a dict `message` and a truthy content; otherwise the flat-field `or`-chain;
otherwise the whole body re-serialized with `json.dumps`.  When the body is
not a dict, `j.get` raises `AttributeError`, which the `except` at line 198
turns into `resp2.text or ""` — the same result as a failed `.json()`. -/
def fallbackText (parse : Option JVal) (bodyText : String) : JVal :=
  match parse with
  | some j =>
    if j.isObj then
      let msg := (j.get? "message").getD (.obj [])
      let t1 : JVal := if msg.isObj then pyGet msg "content" else .null
      let t2 := if truthy t1 then t1 else
        firstTruthyJ [pyGet j "response", pyGet j "text", pyGet j "output", pyGet j "content"]
      if truthy t2 then t2 else .str (jdump j)
    else .str bodyText
  | none => .str bodyText

/-- The whole fallback block entered from the `except` at line 160: events
delivered to `on_chunk`, and whether the block raises out of
`request_stream_sync` (the uncaught `TypeError` of `len`/slicing on a
non-string, non-list text value). -/
def runFallbackWith (p : PostResult) : List Ev × Bool :=
  match p with
  | .raised msg => ([.error ("Ollama 連線失敗：" ++ msg)], false)
  | .resp status bodyText parse =>
    if status ≠ 200 then ([.error ("HTTP " ++ toString status ++ ": " ++ bodyText)], false)
    else
      let text := fallbackText parse bodyText
      if ¬ truthy text then ([.error "模型回傳但無文字"], false)
      else
        match emitChunks text with
        | some ds => (ds ++ [.done], false)
        | none => ([], true)

/-! ## `request_stream_sync` (streamer.py lines 67–211) -/

/-- What the streaming request (`client.stream("POST", ...)`) does:
either it raises (connection failure / timeout — possibly mid-iteration
before any line survives), or a response with `status_code`, `.text`, the
lines the iterator yields, and whether the iterator raises after yielding
them (`midRaise = false` means it ends cleanly). -/
inductive StreamResult where
  | raised
  | resp (status : Nat) (bodyText : String) (ls : List RawLine) (midRaise : Bool)

/-- The upstream environment one call of `request_stream_sync` runs against:
whether `httpx.Client(...)` construction succeeds (with the exception text
otherwise), the behavior of the streaming request, and the behavior of each
successive fallback `client.post` attempt (the source performs at most one;
indexing them lets us state that). -/
structure UpEnv where
  clientOk : Bool
  clientErr : String
  stream : StreamResult
  fallbackAt : Nat → PostResult

/-- `request_stream_sync`: the full sequence of events delivered to
`on_chunk`, paired with `true` when the call raises an uncaught exception
instead of returning. -/
def request_stream_sync (env : UpEnv) : List Ev × Bool :=
  if ¬ env.clientOk then ([.error ("建立 HTTP 客戶端失敗：" ++ env.clientErr)], false)
  else
    match env.stream with
    | .raised => runFallbackWith (env.fallbackAt 0)
    | .resp status bodyText ls midRaise =>
      if status ≠ 200 then ([.error ("HTTP " ++ toString status ++ ": " ++ bodyText)], false)
      else
        match processLines ls with
        | .fin evs => (evs, false)
        | .raised evs =>
          let fb := runFallbackWith (env.fallbackAt 0)
          (evs ++ fb.1, fb.2)
        | .cont evs =>
          if midRaise then
            let fb := runFallbackWith (env.fallbackAt 0)
            (evs ++ fb.1, fb.2)
          else (evs ++ [.done], false)

/-! ## `_call_sync_with_timeout_and_retries` (server.py lines 270–292)

The older monolithic server wraps its single non-streaming call in a retry
loop: on any failure it increments `attempt`, re-raises once
`attempt > max_retries`, and otherwise sleeps `0.5 * attempt` seconds and
tries again.  We embed the outcome of try number `k` (0-based) as
`outcomes k` and record the sleep durations performed. -/

inductive CallOutcome where
  | timeout
  | fail (msg : String)
  | ok (v : JVal)

def CallOutcome.isOk : CallOutcome → Bool
  | .ok _ => true
  | _ => false

/-- The retry loop body, with `k` the index of the try about to run and
enough fuel for the remaining permitted tries.  Returns the successful value
(`none` = the exception is re-raised) and the list of back-off sleeps. -/
def callSyncAux (outcomes : Nat → CallOutcome) (maxRetries : Nat) : Nat → Nat → Option JVal × List ℚ
  | _, 0 => (none, [])
  | k, fuel + 1 =>
    match outcomes k with
    | .ok v => (some v, [])
    | _ =>
      if k + 1 > maxRetries then (none, [])
      else
        let rest := callSyncAux outcomes maxRetries (k + 1) fuel
        (rest.1, ((k + 1 : ℚ) / 2) :: rest.2)

/-- `_call_sync_with_timeout_and_retries(fn, timeout, max_retries)`. -/
def callSyncWithRetries (outcomes : Nat → CallOutcome) (maxRetries : Nat) : Option JVal × List ℚ :=
  callSyncAux outcomes maxRetries 0 (maxRetries + 1)

/-! ## The WebSocket connection handler (routers/ws.py)

Configured limits (config.py lines 18–19, default values). -/

/-- `settings.max_message_size` (config.py line 18). -/
def maxMessageSize : Nat := 10 * 1024

/-- `settings.history_max_length` (config.py line 19). -/
def historyMaxLength : Nat := 20

/-- One conversation turn as stored in `conversation_sessions[session_id]`:
the dict `\x7b"role": r, "content": c\x7d`.  The user content is whatever truthy
value the client supplied; assistant content is always a joined string. -/
structure Turn where
  role : String
  content : JVal
deriving Repr

/-- An inbound WebSocket text frame, after `websocket.receive_text()`:
its Python `len(raw)` and the outcome of `json.loads(raw)` (`none` when
decoding raises).  Every concrete text frame determines exactly one pair. -/
structure Frame where
  len : Nat
  parse : Option JVal

/-- Frames the handler writes back over the socket. -/
inductive OutFrame where
  | delta (text : JVal)
  | done
  | error (msg : String)
  | pong
  | historyCleared
deriving Repr

/-- The outbound frame written for one normalized event (ws.py line 121). -/
def evFrame : Ev → OutFrame
  | .delta t => .delta t
  | .done => .done
  | .error m => .error m

/-- `"".join(assistant_response)`: the joined string, or `none` when any
collected element is not a string (Python `join` raises `TypeError`). -/
def joinTexts : List JVal → Option String
  | [] => some ""
  | .str s :: rest => (joinTexts rest).map (fun t => s ++ t)
  | _ => none

/-- `history[-settings.history_max_length:]` under the guard
`len(history) > settings.history_max_length` — equivalently the last
`historyMaxLength` entries (dropping from an already short list drops
nothing). -/
def trimHistory (h : List Turn) : List Turn :=
  h.drop (h.length - historyMaxLength)

/-- Result of the inner response-consuming loop (ws.py lines 118–144):
either the exchange finishes (frames written, store content afterwards), or
the producer delivered no terminal event and `q.get()` blocks forever. -/
inductive ExchRes where
  | fin (out : List OutFrame) (hist : List Turn)
  | stuck (out : List OutFrame)
deriving Repr

/-- The inner `while True: chunk = await q.get() ...` loop.  `resp` is the
`assistant_response` list collected by `on_chunk` for the deltas already
queued.  On `done` with a non-empty `resp` the user turn is appended, the
assistant texts are joined (line 127) — a `TypeError` there is caught by the
`except` at line 136, which sends one more error frame after the user turn
was already appended — and the history is trimmed; on `done` with no deltas
nothing is appended; on `error` nothing is appended.  Events queued after
the first terminal are abandoned with the queue. -/
def consumeEvents (userMsg : JVal) (hist : List Turn) : List JVal → List Ev → ExchRes
  | _, [] => .stuck []
  | resp, .delta t :: rest =>
    match consumeEvents userMsg hist (resp ++ [t]) rest with
    | .fin out h2 => .fin (.delta t :: out) h2
    | .stuck out => .stuck (.delta t :: out)
  | resp, .done :: _ =>
    if resp.isEmpty then .fin [.done] hist
    else
      match joinTexts resp with
      | some s =>
        let h := hist ++ [⟨"user", userMsg⟩, ⟨"assistant", .str s⟩]
        .fin [.done] (if h.length > historyMaxLength then trimHistory h else h)
      | none => .fin [.done, .error "處理回應時發生錯誤"] (hist ++ [⟨"user", userMsg⟩])
  | _, .error m :: _ => .fin [.error m] hist

/-- Python iteration over the `messages` value: lists yield their items,
dicts their keys, strings their characters; anything else raises
`TypeError` (`none`). -/
def pyIter : JVal → Option (List JVal)
  | .arr xs => some xs
  | .obj fs => some (fs.map (fun kv => JVal.str kv.1))
  | .str s => some (s.data.map (fun c => JVal.str (String.singleton c)))
  | _ => none

/-- `next((m.get("content") for m in messages if m.get("role") == "user"), None)`
(ws.py line 79): the first item whose `role` equals `"user"` yields its
`content`; exhaustion yields `None`; a non-dict item reached before a match
raises `AttributeError` (`Except.error`). -/
def findUserMsg : List JVal → Except Unit JVal
  | [] => .ok .null
  | m :: rest =>
    if m.isObj then
      if isStrEq (pyGet m "role") "user" then .ok (pyGet m "content")
      else findUserMsg rest
    else .error ()

/-- The `messages` array POSTed upstream by `request_stream_sync`
(streamer.py lines 87–92): the session-store history followed by the live
user turn; client-supplied entries other than the selected content never
appear. -/
def buildMessages (userMsg : JVal) (hist : List Turn) : List JVal :=
  hist.map (fun t => .obj [("role", .str t.role), ("content", t.content)]) ++
    [.obj [("role", .str "user"), ("content", userMsg)]]

/-- Result of handling one inbound frame: loop for the next frame with the
new store content, or leave the `while True` loop through the outer
`except` (the connection is torn down and the session deleted), or block
forever inside the exchange. -/
inductive StepRes where
  | next (hist : List Turn) (out : List OutFrame)
  | closed (out : List OutFrame)
  | hung (out : List OutFrame)
deriving Repr

/-- One iteration of `ws_chat`'s `while True` loop (ws.py lines 47–144).

`present` is whether `conversation_sessions` still holds this connection's
entry (the `TTLCache` may have expired it); `evs` are the events
`request_stream_sync` delivers for this exchange when one is started.
Crash paths that escape to the handler's outer `except` (ws.py line 148):
a decoded payload that is not a dict (`payload.get` raises), a
non-iterable `messages` value, a non-dict entry reached while scanning
`messages`, and the `KeyError` of an expired session at line 87. -/
def wsStep (present : Bool) (hist : List Turn) (f : Frame) (evs : List Ev) : StepRes :=
  if f.len > maxMessageSize then
    .next hist [.error ("訊息過大 (最大 " ++ toString maxMessageSize ++ " bytes)")]
  else
    match f.parse with
    | none => .next hist [.error "JSON 格式不正確"]
    | some payload =>
      if ¬ payload.isObj then .closed []
      else if isStrEq (pyGet payload "type") "ping" then .next hist [.pong]
      else if isStrEq (pyGet payload "type") "clear_history" then .next [] [.historyCleared]
      else
        let messages := (payload.get? "messages").getD (.arr [])
        match pyIter messages with
        | none => .closed []
        | some items =>
          match findUserMsg items with
          | .error _ => .closed []
          | .ok userMsg =>
            if ¬ truthy userMsg then .next hist [.error "缺少使用者訊息"]
            else if ¬ present then .closed []
            else
              match consumeEvents userMsg hist [] evs with
              | .fin out h2 => .next h2 out
              | .stuck out => .hung out

/-- The connection's protocol state: awaiting the next frame with the
current store content, torn down, or blocked inside an exchange. -/
inductive ConnState where
  | awaiting (hist : List Turn)
  | closedConn
  | hungConn
deriving Repr

/-- The handler as a state machine over inbound frames; `present` and `evs`
are the environment of the processed step. -/
def wsStepState : ConnState → Bool × Frame × List Ev → ConnState × List OutFrame
  | .awaiting h, (present, f, evs) =>
    (match wsStep present h f evs with
     | .next h2 out => (.awaiting h2, out)
     | .closed out => (.closedConn, out)
     | .hung out => (.hungConn, out))
  | s, _ => (s, [])

/-! ## Reference definitions written from the specification's wording
(for the refinement-style claims about extraction precedence and user-turn
selection). -/

/-- Spec §4.2 step 3 applied to a single choice: that choice's
`delta.content` (if truthy) else `delta.text`, as a non-empty string. -/
def specChoiceDelta (c : JVal) : Option String :=
  if c.isObj then
    let deltaRaw := pyGet c "delta"
    let delta := if truthy deltaRaw then deltaRaw else .obj []
    if delta.isObj then
      strNonempty (if truthy (pyGet delta "content") then pyGet delta "content" else pyGet delta "text")
    else none
  else none

/-- Spec §4.2 step 4 applied to a single choice: that choice's `text`. -/
def specChoiceTextOnly (c : JVal) : Option String :=
  if c.isObj then strNonempty (pyGet c "text") else none

/-- First choice on which the given single-choice extractor fires. -/
def firstSomeWith (f : JVal → Option String) : List JVal → Option String
  | [] => none
  | c :: cs =>
    match f c with
    | some s => some s
    | none => firstSomeWith f cs

/-- The claim's extraction order, literally: `message.content`, then the
flat scalar fields, then `choices[].delta.content`/`choices[].delta.text`
across all choices, then `choices[].text` across all choices. -/
def specExtractClaimOrder (part : JVal) : Option String :=
  let fromMessage :=
    match part.get? "message" with
    | some m => if m.isObj then strNonempty (pyGet m "content") else none
    | none => none
  match fromMessage with
  | some s => some s
  | none =>
    match firstFlat part flatKeys with
    | some s => some s
    | none =>
      match part.get? "choices" with
      | some (.arr cs) =>
        (match firstSomeWith specChoiceDelta cs with
         | some s => some s
         | none => firstSomeWith specChoiceTextOnly cs)
      | _ => none

/-- The amended extraction order: identical except that the choices are
examined one at a time, each choice's `delta.content`/`delta.text` checked
before that same choice's `text`, first match winning. -/
def specExtractPerChoice (part : JVal) : Option String :=
  let fromMessage :=
    match part.get? "message" with
    | some m => if m.isObj then strNonempty (pyGet m "content") else none
    | none => none
  match fromMessage with
  | some s => some s
  | none =>
    match firstFlat part flatKeys with
    | some s => some s
    | none =>
      match part.get? "choices" with
      | some (.arr cs) =>
        firstSomeWith (fun c =>
          match specChoiceDelta c with
          | some s => some s
          | none => specChoiceTextOnly c) cs
      | _ => none

theorem choiceText_eq_perChoice (c : JVal) :
    choiceText c =
      match specChoiceDelta c with
      | some s => some s
      | none => specChoiceTextOnly c := by
  unfold choiceText specChoiceDelta specChoiceTextOnly
  by_cases h : c.isObj = true <;> simp [h]

theorem scanChoices_eq_firstSomeWith (cs : List JVal) :
    scanChoices cs =
      firstSomeWith (fun c =>
        match specChoiceDelta c with
        | some s => some s
        | none => specChoiceTextOnly c) cs := by
  induction cs with
  | nil => rfl
  | cons c cs ih =>
    unfold scanChoices firstSomeWith
    rw [choiceText_eq_perChoice, ih]

/-- A payload with a truthy `choices[0].text` and a `choices[1].delta.content`:
the source takes the earlier choice's `text`; the claim's order takes the
later choice's `delta.content`. -/
def partChoiceOrder : JVal :=
  .obj [("choices", .arr [.obj [("text", .str "A")],
                          .obj [("delta", .obj [("content", .str "B")])]])]

/-- A payload carrying both `choices[0].delta.content` and a top-level
`response`. -/
def partRespAndChoices : JVal :=
  .obj [("choices", .arr [.obj [("delta", .obj [("content", .str "B")])]]),
        ("response", .str "R")]

/-- C3 counterexample: on a payload whose first choice has `text: "A"` and
whose second choice has `delta.content: "B"`, the source's extractor
returns `"A"` (it examines each choice's `delta` and `text` before moving
to the next choice), while the claimed order — all `choices[].delta`
fields before any `choices[].text` — returns `"B"`. -/
theorem extract_claim_order_fails_on_two_choices :
    extractTextFromPart partChoiceOrder = some "A" ∧
    specExtractClaimOrder partChoiceOrder = some "B" ∧
    (some "A" : Option String) ≠ some "B" :=
  ⟨rfl, rfl, by decide⟩

/-- C3 amended: extraction checks `message.content` first, then the flat
scalar fields `response`, `response_text`, `text`, `output`, `content` in
that priority order, then the choices one at a time — each choice's
`delta.content`/`delta.text` before that same choice's `text`, first
non-empty string winning — and returns `None` when nothing matches; in
particular a payload with both a non-empty `choices[0].delta.content` and a
non-empty top-level `response` yields the `response` value, and a payload
with no matching field yields `None`. -/
theorem extract_matches_per_choice_precedence :
    (∀ part : JVal, extractTextFromPart part = specExtractPerChoice part) ∧
    extractTextFromPart partRespAndChoices = some "R" ∧
    extractTextFromPart (.obj [("created_at", .str "now")]) = none := by
  refine ⟨fun part => ?_, rfl, rfl⟩
  simp only [extractTextFromPart, specExtractPerChoice, scanChoices_eq_firstSomeWith]

/-! ## C2: which client-supplied `messages` entry becomes the live turn -/

/-- The predicate "this entry is a user entry" from the claim's wording. -/
def isUserEntry (m : JVal) : Bool :=
  m.isObj && isStrEq (pyGet m "role") "user"

/-- The claim's selection: content of the *last* user entry. -/
def lastUserContent (ms : List JVal) : Option JVal :=
  ((ms.filter isUserEntry).getLast?).map (fun m => pyGet m "content")

/-- The amended selection: content of the *first* user entry. -/
def firstUserContent (ms : List JVal) : Option JVal :=
  (ms.find? isUserEntry).map (fun m => pyGet m "content")

/-- Two user entries: is `"A"` (first) or `"B"` (last) selected? -/
def msgsAB : List JVal :=
  [.obj [("role", .str "user"), ("content", .str "A")],
   .obj [("role", .str "user"), ("content", .str "B")]]

/-- C2 counterexample: with two user entries the handler's `next(...)`
selects the *first* user content `"A"`, not the last (`"B"`), and the
upstream message array for that exchange carries `"A"` (after the
store-supplied history), never `"B"`. -/
theorem live_turn_is_first_not_last_user :
    findUserMsg msgsAB = .ok (.str "A") ∧
    lastUserContent msgsAB = some (.str "B") ∧
    buildMessages (.str "A") [] = [.obj [("role", .str "user"), ("content", .str "A")]] ∧
    JVal.str "A" ≠ JVal.str "B" :=
  ⟨rfl, rfl, rfl, by simp⟩

/-- The part of the handler's chat branch determined by the client's
`messages` value: `none` when iterating it raises, otherwise the outcome
of the `next(...)` selection. -/
def selectedUser (p : JVal) : Option (Except Unit JVal) :=
  (pyIter ((p.get? "messages").getD (.arr []))).map findUserMsg

/-! ## C1: shape of the event sequence delivered to `on_chunk` -/

theorem goodSeq_cons_delta (t : JVal) (evs : List Ev) (h : goodSeq evs = true) :
    goodSeq (.delta t :: evs) = true := by
  cases evs with
  | nil => simp [goodSeq] at h
  | cons e rest => simp [goodSeq, Ev.isDelta, h]

theorem goodSeq_append_of_allDelta (ds evs : List Ev)
    (hd : ds.all Ev.isDelta = true) (h : goodSeq evs = true) :
    goodSeq (ds ++ evs) = true := by
  induction ds with
  | nil => simpa using h
  | cons d ds ih =>
    simp only [List.all_cons, Bool.and_eq_true] at hd
    cases d with
    | delta t => exact goodSeq_cons_delta t _ (ih hd.2)
    | done => simp [Ev.isDelta] at hd
    | error m => simp [Ev.isDelta] at hd

theorem goodSeq_singleton_terminal (e : Ev) (h : e.isTerminal = true) :
    goodSeq [e] = true := by
  simpa [goodSeq] using h

theorem goodSeq_allDelta_concat_done (ds : List Ev) (hd : ds.all Ev.isDelta = true) :
    goodSeq (ds ++ [Ev.done]) = true :=
  goodSeq_append_of_allDelta ds [Ev.done] hd rfl

/-- Case analysis of one line-loop iteration: a `cont`/`raised` outcome only
ever contributes deltas, a `fin` outcome contributes deltas then `done`. -/
theorem processLine_cont_allDelta (l : RawLine) (evs : List Ev)
    (h : processLine l = .cont evs) : evs.all Ev.isDelta = true := by
  unfold processLine at h
  split at h
  · cases h; rfl
  · split at h
    · cases h
    · split at h
      · cases h; simp [Ev.isDelta]
      · split at h
        · split at h
          · split at h <;> cases h
          · split at h
            · cases h; simp [Ev.isDelta]
            · cases h; rfl
        · cases h

theorem processLine_fin_goodSeq (l : RawLine) (evs : List Ev)
    (h : processLine l = .fin evs) : goodSeq evs = true := by
  unfold processLine at h
  split at h
  · cases h
  · split at h
    · cases h; rfl
    · split at h
      · cases h
      · split at h
        · split at h
          · split at h
            · cases h; rfl
            · cases h; rfl
          · split at h <;> cases h
        · cases h

theorem processLine_raised_allDelta (l : RawLine) (evs : List Ev)
    (h : processLine l = .raised evs) : evs.all Ev.isDelta = true := by
  unfold processLine at h
  split at h
  · cases h
  · split at h
    · cases h
    · split at h
      · cases h
      · split at h
        · split at h
          · split at h <;> cases h
          · split at h <;> cases h
        · cases h; rfl

theorem processLines_cont_allDelta (ls : List RawLine) (evs : List Ev)
    (h : processLines ls = .cont evs) : evs.all Ev.isDelta = true := by
  induction ls generalizing evs with
  | nil => cases h; rfl
  | cons l ls ih =>
    unfold processLines at h
    cases hl : processLine l with
    | cont evs1 =>
      rw [hl] at h
      cases hrest : processLines ls with
      | cont evs2 =>
        rw [hrest] at h
        cases h
        simp only [List.all_append, Bool.and_eq_true]
        exact ⟨processLine_cont_allDelta l evs1 hl, ih evs2 hrest⟩
      | fin evs2 => rw [hrest] at h; cases h
      | raised evs2 => rw [hrest] at h; cases h
    | fin evs1 => rw [hl] at h; cases h
    | raised evs1 => rw [hl] at h; cases h

theorem processLines_fin_goodSeq (ls : List RawLine) (evs : List Ev)
    (h : processLines ls = .fin evs) : goodSeq evs = true := by
  induction ls generalizing evs with
  | nil => cases h
  | cons l ls ih =>
    unfold processLines at h
    cases hl : processLine l with
    | cont evs1 =>
      rw [hl] at h
      cases hrest : processLines ls with
      | cont evs2 => rw [hrest] at h; cases h
      | fin evs2 =>
        rw [hrest] at h
        cases h
        exact goodSeq_append_of_allDelta _ _ (processLine_cont_allDelta l evs1 hl) (ih evs2 hrest)
      | raised evs2 => rw [hrest] at h; cases h
    | fin evs1 =>
      rw [hl] at h; cases h
      exact processLine_fin_goodSeq l _ hl
    | raised evs1 => rw [hl] at h; cases h

theorem processLines_raised_allDelta (ls : List RawLine) (evs : List Ev)
    (h : processLines ls = .raised evs) : evs.all Ev.isDelta = true := by
  induction ls generalizing evs with
  | nil => cases h
  | cons l ls ih =>
    unfold processLines at h
    cases hl : processLine l with
    | cont evs1 =>
      rw [hl] at h
      cases hrest : processLines ls with
      | cont evs2 => rw [hrest] at h; cases h
      | fin evs2 => rw [hrest] at h; cases h
      | raised evs2 =>
        rw [hrest] at h
        cases h
        simp only [List.all_append, Bool.and_eq_true]
        exact ⟨processLine_cont_allDelta l evs1 hl, ih evs2 hrest⟩
    | fin evs1 => rw [hl] at h; cases h
    | raised evs1 =>
      rw [hl] at h; cases h
      exact processLine_raised_allDelta l _ hl

theorem all_isDelta_map {α : Type} (f : α → JVal) (l : List α) :
    (l.map (fun x => Ev.delta (f x))).all Ev.isDelta = true := by
  induction l with
  | nil => rfl
  | cons x xs ih => simp [Ev.isDelta, ih]

/-- Whatever the chunk loop of the fallback emits is a list of deltas. -/
theorem emitChunks_allDelta (v : JVal) (ds : List Ev) (h : emitChunks v = some ds) :
    ds.all Ev.isDelta = true := by
  cases v with
  | str s =>
    simp only [emitChunks, Option.some.injEq] at h
    subst h
    exact all_isDelta_map _ _
  | arr xs =>
    simp only [emitChunks, Option.some.injEq] at h
    subst h
    exact all_isDelta_map _ _
  | null => cases h
  | bool b => cases h
  | num n => cases h
  | obj fs => cases h

/-- Whenever the fallback block returns (does not raise), its events are
deltas followed by one terminal. -/
theorem runFallbackWith_goodSeq (p : PostResult)
    (h : (runFallbackWith p).2 = false) : goodSeq (runFallbackWith p).1 = true := by
  cases p with
  | raised msg => rfl
  | resp status bodyText parse =>
    unfold runFallbackWith at h ⊢
    by_cases hs : status ≠ 200
    · simp only [if_pos hs]
      rfl
    · simp only [if_neg hs] at h ⊢
      by_cases ht : truthy (fallbackText parse bodyText) = true
      · simp only [if_neg (by simp [ht] : ¬ (¬ truthy (fallbackText parse bodyText) = true))] at h ⊢
        cases hc : emitChunks (fallbackText parse bodyText) with
        | none => rw [hc] at h; simp at h
        | some ds =>
          exact goodSeq_allDelta_concat_done ds (emitChunks_allDelta _ ds hc)
      · simp only [if_pos ht]
        rfl

/-- C1 amended: whenever `request_stream_sync` returns normally, the events
delivered to `on_chunk` are zero or more `delta` events followed by exactly
one terminal `done`/`error` — on every control path (stream success,
`[DONE]`, `done:true` payload, non-2xx, client-creation failure, raising
line iteration, and the non-streaming fallback).  The call fails to return
(raising with no terminal delivered) only when the fallback's 200 body
yields a truthy extracted text that is neither a string nor a list. -/
theorem stream_events_good_of_normal_return :
    ∀ env : UpEnv, (request_stream_sync env).2 = false →
      goodSeq (request_stream_sync env).1 = true := by
  intro env h
  obtain ⟨cok, cerr, stream, fb⟩ := env
  cases cok with
  | false => rfl
  | true =>
    cases stream with
    | raised => exact runFallbackWith_goodSeq _ h
    | resp status bodyText ls midRaise =>
      simp only [request_stream_sync] at h ⊢
      by_cases h200 : status ≠ 200
      · rw [if_pos h200]
        rfl
      · rw [if_neg h200] at h ⊢
        cases hp : processLines ls with
        | fin evs => exact processLines_fin_goodSeq ls evs hp
        | raised evs =>
          rw [hp] at h
          exact goodSeq_append_of_allDelta _ _ (processLines_raised_allDelta ls evs hp)
            (runFallbackWith_goodSeq _ h)
        | cont evs =>
          rw [hp] at h
          cases midRaise with
          | true =>
            exact goodSeq_append_of_allDelta _ _ (processLines_cont_allDelta ls evs hp)
              (runFallbackWith_goodSeq _ h)
          | false =>
            exact goodSeq_append_of_allDelta _ [Ev.done]
              (processLines_cont_allDelta ls evs hp) rfl

/-- A fallback 200 body whose `message.content` is the integer `5`: truthy,
so the flat-field chain and the `json.dumps` re-serialization are skipped,
and `len(5)` then raises `TypeError` out of `request_stream_sync`. -/
def fbIntBody : JVal := .obj [("message", .obj [("content", .num 5)])]

/-- An exchange whose streaming attempt raises immediately and whose single
fallback POST returns 200 with `fbIntBody`. -/
def envIntContent : UpEnv :=
  ⟨true, "", .resp 200 "" [] true, fun _ => .resp 200 "raw" (some fbIntBody)⟩

/-- C1 counterexample: on the non-streaming-fallback control path with a
200 body whose `message.content` is the integer `5`, `request_stream_sync`
raises and `on_chunk` receives no event at all — zero `delta`s and zero
terminals, violating "exactly one terminal ... never neither". -/
theorem stream_events_no_terminal_on_int_content :
    request_stream_sync envIntContent = ([], true) ∧
      goodSeq (request_stream_sync envIntContent).1 = false :=
  ⟨rfl, rfl⟩

/-- A clean streamed exchange: one `done:true` payload carrying
`message.content = "hi"`. -/
def envDoneTrue : UpEnv :=
  ⟨true, "",
   .resp 200 ""
     [⟨"x", some (.obj [("message", .obj [("content", .str "hi")]), ("done", .bool true)])⟩]
     false,
   fun _ => .raised "e"⟩

theorem stream_events_good_witness :
    (request_stream_sync envDoneTrue).2 = false ∧
      goodSeq (request_stream_sync envDoneTrue).1 = true :=
  ⟨rfl, stream_events_good_of_normal_return envDoneTrue rfl⟩

/-! ## C6: retry policy of the fallback paths -/

theorem callSyncAux_spec (outcomes : Nat → CallOutcome) (maxRetries : Nat) :
    ∀ (k j fuel : Nat), k < fuel →
      (∀ i, i < k → (outcomes (j + i)).isOk = false) →
      ∀ v, outcomes (j + k) = .ok v → j + k ≤ maxRetries →
      callSyncAux outcomes maxRetries j fuel =
        (some v, (List.range k).map (fun i : Nat => (((j + i + 1 : Nat)) : ℚ) / 2)) := by
  intro k
  induction k with
  | zero =>
    intro j fuel hfuel hfail v hok hle
    cases fuel with
    | zero => omega
    | succ fuel =>
      unfold callSyncAux
      rw [Nat.add_zero] at hok
      rw [hok]
      simp
  | succ k ih =>
    intro j fuel hfuel hfail v hok hle
    cases fuel with
    | zero => omega
    | succ fuel =>
      unfold callSyncAux
      have h0 : (outcomes j).isOk = false := by
        have h := hfail 0 (by omega)
        simpa using h
      have hrec := ih (j + 1) fuel (by omega)
        (fun i hi => by
          have h := hfail (i + 1) (by omega)
          have harith : j + 1 + i = j + (i + 1) := by omega
          rw [harith]
          exact h)
        v
        (by
          have harith : j + 1 + k = j + (k + 1) := by omega
          rw [harith]
          exact hok)
        (by omega)
      have hl : ((j : ℚ) + 1) / 2 ::
            (List.range k).map (fun i : Nat => (((j + 1 + i + 1 : Nat)) : ℚ) / 2) =
          (List.range (k + 1)).map (fun i : Nat => (((j + i + 1 : Nat)) : ℚ) / 2) := by
        rw [List.range_succ_eq_map, List.map_cons, List.map_map]
        refine congrArg₂ _ (by push_cast; ring) ?_
        refine List.map_congr_left ?_
        intro i _
        simp only [Function.comp_apply, Nat.succ_eq_add_one]
        push_cast
        ring
      cases ho : outcomes j with
      | ok w => rw [ho] at h0; simp [CallOutcome.isOk] at h0
      | timeout =>
        rw [if_neg (by omega : ¬ j + 1 > maxRetries), hrec]
        exact congrArg (Prod.mk (some v)) hl
      | fail msg =>
        rw [if_neg (by omega : ¬ j + 1 > maxRetries), hrec]
        exact congrArg (Prod.mk (some v)) hl

/-- Fallback environments differing only in what a *second* POST attempt
would return: the first attempt fails; a second attempt would succeed. -/
def envFbOnce : UpEnv :=
  ⟨true, "", .raised,
   fun k => if k = 0 then .raised "connection refused"
            else .resp 200 "" (some (.obj [("message", .obj [("content", .str "ok")])]))⟩

/-- Same environment but every attempt fails. -/
def envFbNever : UpEnv :=
  ⟨true, "", .raised, fun _ => .raised "connection refused"⟩

/-- C6 counterexample: `request_stream_sync`'s non-streaming fallback is
*not* retried: after the first POST attempt fails it reports the error even
though a second attempt would succeed (same events as when every attempt
fails), whereas the claimed retry behaviour — implemented only in server.py's
`_call_sync_with_timeout_and_retries` with `MAX_RETRIES = 2` — would sleep
`0.5 * 1` seconds and return the second attempt's value. -/
theorem fallback_not_retried_in_streamer :
    request_stream_sync envFbOnce = ([.error "Ollama 連線失敗：connection refused"], false) ∧
    request_stream_sync envFbNever = ([.error "Ollama 連線失敗：connection refused"], false) ∧
    callSyncWithRetries
        (fun k => if k = 0 then .fail "connection refused" else .ok (.str "ok")) 2 =
      (some (.str "ok"), [1 / 2]) := by
  refine ⟨rfl, rfl, ?_⟩
  show (some (JVal.str "ok"), [((0 : Nat) + 1 : ℚ) / 2]) = (some (JVal.str "ok"), [1 / 2])
  norm_num

/-- C6 amended: `request_stream_sync`'s non-streaming fallback issues
exactly one POST attempt — its result depends only on attempt 0, so neither
the streaming attempt nor the fallback is ever retried there, and a
mid-stream failure triggers at most that one fallback; the retry-with-
backoff policy belongs to server.py's `_call_sync_with_timeout_and_retries`,
which, when the first `k ≤ max_retries` attempts fail and attempt `k`
succeeds, returns attempt `k`'s value after sleeping `0.5 * attempt`
seconds before each retry. -/
theorem fallback_single_attempt_and_server_retry_backoff :
    (∀ e₁ e₂ : UpEnv, e₁.clientOk = e₂.clientOk → e₁.clientErr = e₂.clientErr →
      e₁.stream = e₂.stream → e₁.fallbackAt 0 = e₂.fallbackAt 0 →
      request_stream_sync e₁ = request_stream_sync e₂) ∧
    (∀ (outcomes : Nat → CallOutcome) (maxRetries k : Nat) (v : JVal),
      k ≤ maxRetries →
      (∀ i, i < k → (outcomes i).isOk = false) →
      outcomes k = .ok v →
      callSyncWithRetries outcomes maxRetries =
        (some v, (List.range k).map (fun i : Nat => (((i + 1 : Nat)) : ℚ) / 2))) := by
  constructor
  · intro e₁ e₂ hc he hs hf
    obtain ⟨c₁, r₁, s₁, f₁⟩ := e₁
    obtain ⟨c₂, r₂, s₂, f₂⟩ := e₂
    simp only at hc he hs hf
    subst hc
    subst he
    subst hs
    simp only [request_stream_sync, hf]
  · intro outcomes maxRetries k v hk hfail hok
    have h := callSyncAux_spec outcomes maxRetries k 0 (maxRetries + 1) (by omega)
      (fun i hi => by simpa using hfail i hi) v (by simpa using hok) (by omega)
    rw [callSyncWithRetries, h]
    refine congrArg (Prod.mk (some v)) ?_
    refine List.map_congr_left ?_
    intro i _
    push_cast
    ring

/-- Environments for the witness: identical except at fallback attempt 1,
which the source never reaches. -/
def envFbW₁ : UpEnv := ⟨true, "", .raised, fun _ => .raised "x"⟩

def envFbW₂ : UpEnv :=
  ⟨true, "", .raised, fun k => if k = 0 then .raised "x" else .resp 200 "" none⟩

theorem fallback_single_attempt_witness :
    request_stream_sync envFbW₁ = request_stream_sync envFbW₂ ∧
      callSyncWithRetries (fun k => if k = 0 then .fail "x" else .ok .null) 2 =
        (some .null, (List.range 1).map (fun i : Nat => (((i + 1 : Nat)) : ℚ) / 2)) :=
  ⟨fallback_single_attempt_and_server_retry_backoff.1 envFbW₁ envFbW₂ rfl rfl rfl rfl,
   fallback_single_attempt_and_server_retry_backoff.2 _ 2 1 .null (by omega)
     (fun i hi => by
       match i, hi with
       | 0, _ => rfl)
     rfl⟩

/-! ## C9: where delta text can come from -/

/-- A fallback body carrying only internal/meta fields (timing metadata and
a reasoning trace), with no field of the extraction precedence list. -/
def jMetaOnly : JVal := .obj [("total_duration", .num 123), ("thinking", .str "secret")]

/-- Mid-stream failure followed by a 200 fallback whose body is
`jMetaOnly`. -/
def envMetaDump : UpEnv :=
  ⟨true, "", .resp 200 "" [] true, fun _ => .resp 200 "raw" (some jMetaOnly)⟩

/-- C9 counterexample: on the non-streaming fallback, a body with *no*
precedence-list field is re-serialized whole by `json.dumps` and emitted as
delta text — so the timing metadata and the reasoning trace are surfaced to
the client even though the extractor returns nothing for this payload. -/
theorem fallback_dump_surfaces_meta_fields :
    extractTextFromPart jMetaOnly = none ∧
    request_stream_sync envMetaDump =
      ([.delta (.str "\x7b\"total_duration\": 123, \"thinking\": \"secret\"\x7d"), .done], false) ∧
    jdump jMetaOnly = "\x7b\"total_duration\": 123, \"thinking\": \"secret\"\x7d" :=
  ⟨rfl, rfl, rfl⟩

/-- The events one `LineOut` outcome carries. -/
def LineOut.events : LineOut → List Ev
  | .cont evs => evs
  | .fin evs => evs
  | .raised evs => evs

/-- "The delta text `t` is legitimately derived from line `l`": either the
line failed to parse and is forwarded verbatim, or it parsed and the
extractor(which reads only the precedence-list fields) produced `t`. -/
def lineYields (l : RawLine) (t : JVal) : Prop :=
  (l.parse = none ∧ t = .str l.data) ∨
    (∃ part s, l.parse = some part ∧ extractTextFromPart part = some s ∧ t = .str s)

theorem processLine_delta_yields (l : RawLine) (t : JVal)
    (h : Ev.delta t ∈ (processLine l).events) : lineYields l t := by
  unfold processLine at h
  split at h
  · simp [LineOut.events] at h
  · split at h
    · simp [LineOut.events] at h
    · split at h
      · rename_i hdat hdone hparse
        simp only [LineOut.events, List.mem_singleton] at h
        cases h
        exact Or.inl ⟨hparse, rfl⟩
      · rename_i part hparse
        split at h
        · split at h
          · split at h
            · rename_i s hext
              simp only [LineOut.events, List.mem_cons, List.mem_singleton] at h
              rcases h with h | h | h
              · cases h
                exact Or.inr ⟨part, s, hparse, hext, rfl⟩
              · cases h
              · cases h
            · simp [LineOut.events] at h
          · split at h
            · rename_i s hext
              simp only [LineOut.events, List.mem_singleton] at h
              cases h
              exact Or.inr ⟨part, s, hparse, hext, rfl⟩
            · simp [LineOut.events] at h
        · simp [LineOut.events] at h

/-- C9 amended: on the streaming path every `delta` text comes either from
the extractor — which reads only the precedence-list fields — applied to a
parsed line, or verbatim from a line that failed to parse; internal/meta
fields of parsed payloads are never surfaced there.  (The non-streaming
fallback does not share this property: see the counterexample.) -/
theorem streaming_deltas_only_from_extractor :
    ∀ (ls : List RawLine) (t : JVal),
      Ev.delta t ∈ (processLines ls).events → ∃ l ∈ ls, lineYields l t := by
  intro ls
  induction ls with
  | nil =>
    intro t h
    simp [processLines, LineOut.events] at h
  | cons l ls ih =>
    intro t h
    unfold processLines at h
    cases hl : processLine l with
    | cont evs1 =>
      rw [hl] at h
      cases hrest : processLines ls with
      | cont evs2 =>
        rw [hrest] at h
        simp only [LineOut.events, List.mem_append] at h
        rcases h with h | h
        · exact ⟨l, List.mem_cons_self l ls, processLine_delta_yields l t (by rw [hl]; exact h)⟩
        · obtain ⟨l2, hmem, hy⟩ := ih t (by rw [hrest]; exact h)
          exact ⟨l2, List.mem_cons_of_mem l hmem, hy⟩
      | fin evs2 =>
        rw [hrest] at h
        simp only [LineOut.events, List.mem_append] at h
        rcases h with h | h
        · exact ⟨l, List.mem_cons_self l ls, processLine_delta_yields l t (by rw [hl]; exact h)⟩
        · obtain ⟨l2, hmem, hy⟩ := ih t (by rw [hrest]; exact h)
          exact ⟨l2, List.mem_cons_of_mem l hmem, hy⟩
      | raised evs2 =>
        rw [hrest] at h
        simp only [LineOut.events, List.mem_append] at h
        rcases h with h | h
        · exact ⟨l, List.mem_cons_self l ls, processLine_delta_yields l t (by rw [hl]; exact h)⟩
        · obtain ⟨l2, hmem, hy⟩ := ih t (by rw [hrest]; exact h)
          exact ⟨l2, List.mem_cons_of_mem l hmem, hy⟩
    | fin evs1 =>
      rw [hl] at h
      exact ⟨l, List.mem_cons_self l ls, processLine_delta_yields l t (by rw [hl]; exact h)⟩
    | raised evs1 =>
      rw [hl] at h
      exact ⟨l, List.mem_cons_self l ls, processLine_delta_yields l t (by rw [hl]; exact h)⟩

/-- A parsed streamed line with `message.content = "hi"`. -/
def lineHi : RawLine := ⟨"x", some (.obj [("message", .obj [("content", .str "hi")])])⟩

theorem streaming_deltas_only_from_extractor_witness :
    Ev.delta (.str "hi") ∈ (processLines [lineHi]).events ∧
      ∃ l ∈ [lineHi], lineYields l (.str "hi") :=
  ⟨List.mem_cons_self _ _,
   streaming_deltas_only_from_extractor [lineHi] (.str "hi") (List.mem_cons_self _ _)⟩

/-- The chat branch of `wsStep`, factored through `selectedUser`: for an
accepted-size frame whose payload is a dict and not a control message, the
step is fully determined by the `next(...)` selection outcome. -/
theorem wsStep_chat_eq (present : Bool) (hist : List Turn) (evs : List Ev)
    (f : Frame) (p : JVal) (hsize : ¬ f.len > maxMessageSize) (hp : f.parse = some p)
    (ho : p.isObj = true)
    (hping : isStrEq (pyGet p "type") "ping" = false)
    (hclear : isStrEq (pyGet p "type") "clear_history" = false) :
    wsStep present hist f evs =
      match selectedUser p with
      | none => .closed []
      | some (.error _) => .closed []
      | some (.ok userMsg) =>
        if ¬ truthy userMsg then .next hist [.error "缺少使用者訊息"]
        else if ¬ present then .closed []
        else
          match consumeEvents userMsg hist [] evs with
          | .fin out h2 => .next h2 out
          | .stuck out => .hung out := by
  obtain ⟨len, parse⟩ := f
  simp only at hp hsize
  subst hp
  unfold wsStep
  rw [if_neg hsize]
  simp only [ho, hping, hclear, Bool.false_eq_true, Bool.true_eq_false, not_true,
    if_false, ite_false, Bool.not_true, reduceIte]
  unfold selectedUser
  cases pyIter ((p.get? "messages").getD (.arr [])) with
  | none => rfl
  | some items =>
    rw [show Option.map findUserMsg (some items) = some (findUserMsg items) from rfl]
    show (match findUserMsg items with
      | Except.error _ => StepRes.closed []
      | Except.ok userMsg =>
        if ¬ truthy userMsg = true then StepRes.next hist [OutFrame.error "缺少使用者訊息"]
        else if ¬ present = true then StepRes.closed []
        else
          match consumeEvents userMsg hist [] evs with
          | ExchRes.fin out h2 => StepRes.next h2 out
          | ExchRes.stuck out => StepRes.hung out) = _
    cases findUserMsg items with
    | error e => rfl
    | ok u => rfl

/-- A chat payload consisting only of a `messages` array. -/
def chatPayload (ms : List JVal) : JVal := .obj [("messages", .arr ms)]

theorem findUserMsg_eq_firstUser (ms : List JVal) (hobj : ∀ m ∈ ms, m.isObj = true) :
    findUserMsg ms = .ok ((firstUserContent ms).getD .null) := by
  induction ms with
  | nil => rfl
  | cons m rest ih =>
    have hm : m.isObj = true := hobj m (List.mem_cons_self m rest)
    unfold findUserMsg
    rw [if_pos hm]
    by_cases hu : isStrEq (pyGet m "role") "user" = true
    · rw [if_pos hu]
      unfold firstUserContent
      rw [List.find?_cons_of_pos _ (by simp [isUserEntry, hm, hu])]
      rfl
    · rw [if_neg hu]
      rw [ih (fun x hx => hobj x (List.mem_cons_of_mem m hx))]
      unfold firstUserContent
      rw [List.find?_cons_of_neg _ (by simp [isUserEntry, hu])]

theorem findUserMsg_append (ms extra : List JVal) (v : JVal) :
    findUserMsg ms = .ok v → ms.any isUserEntry = true →
      findUserMsg (ms ++ extra) = .ok v := by
  induction ms with
  | nil =>
    intro _ hany
    simp at hany
  | cons m rest ih =>
    intro hok hany
    rw [List.cons_append]
    by_cases hm : m.isObj = true
    · simp only [findUserMsg] at hok ⊢
      rw [if_pos hm] at hok ⊢
      by_cases hu : isStrEq (pyGet m "role") "user" = true
      · rw [if_pos hu] at hok ⊢
        exact hok
      · rw [if_neg hu] at hok ⊢
        refine ih hok ?_
        have hfalse : isUserEntry m = false := by
          simp [isUserEntry, Bool.eq_false_iff.mpr hu]
        simpa [List.any_cons, hfalse] using hany
    · simp only [findUserMsg] at hok
      rw [if_neg hm] at hok
      cases hok

/-- C2 amended: the handler selects the content of the *first* entry with
`role == "user"` as the live turn (not the last); any client-supplied
entries after that hit are completely ignored (the step result is
unchanged by appending them); and the upstream message array is the
session-store history followed by the selected live turn only. -/
theorem live_turn_selection_first_user :
    (∀ ms : List JVal, (∀ m ∈ ms, m.isObj = true) →
      findUserMsg ms = .ok ((firstUserContent ms).getD .null)) ∧
    (∀ (ms extra : List JVal) (v : JVal), findUserMsg ms = .ok v →
      ms.any isUserEntry = true → findUserMsg (ms ++ extra) = .ok v) ∧
    (∀ (present : Bool) (hist : List Turn) (evs : List Ev) (len : Nat)
        (ms extra : List JVal) (v : JVal),
      ¬ len > maxMessageSize → findUserMsg ms = .ok v → ms.any isUserEntry = true →
      wsStep present hist ⟨len, some (chatPayload ms)⟩ evs =
        wsStep present hist ⟨len, some (chatPayload (ms ++ extra))⟩ evs) ∧
    (∀ (u : JVal) (hist : List Turn),
      buildMessages u hist =
        hist.map (fun t => .obj [("role", .str t.role), ("content", t.content)]) ++
          [.obj [("role", .str "user"), ("content", u)]]) := by
  refine ⟨findUserMsg_eq_firstUser, findUserMsg_append, ?_, fun u hist => rfl⟩
  intro present hist evs len ms extra v hsize hok hany
  rw [wsStep_chat_eq present hist evs _ (chatPayload ms) hsize rfl rfl rfl rfl,
      wsStep_chat_eq present hist evs _ (chatPayload (ms ++ extra)) hsize rfl rfl rfl rfl]
  rw [show selectedUser (chatPayload ms) = some (findUserMsg ms) from rfl,
      show selectedUser (chatPayload (ms ++ extra)) = some (findUserMsg (ms ++ extra)) from rfl]
  rw [hok, findUserMsg_append ms extra v hok hany]

theorem live_turn_selection_witness :
    findUserMsg msgsAB = .ok ((firstUserContent msgsAB).getD .null) ∧
    findUserMsg ([.obj [("role", .str "user"), ("content", .str "A")]] ++ msgsAB) =
      .ok (.str "A") ∧
    wsStep true [] ⟨10, some (chatPayload [.obj [("role", .str "user"), ("content", .str "A")]])⟩ [.done] =
      wsStep true [] ⟨10, some (chatPayload ([.obj [("role", .str "user"), ("content", .str "A")]] ++ msgsAB))⟩ [.done] :=
  ⟨live_turn_selection_first_user.1 msgsAB
      (by intro m hm; simp only [msgsAB, List.mem_cons, List.not_mem_nil, or_false] at hm
          rcases hm with h | h <;> subst h <;> rfl),
   live_turn_selection_first_user.2.1 _ msgsAB (.str "A") rfl rfl,
   live_turn_selection_first_user.2.2.1 true [] [.done] 10 _ msgsAB (.str "A")
      (by decide) rfl rfl⟩

/-! ## Shared facts about the exchange-consuming loop -/

def isStrVal : JVal → Bool
  | .str _ => true
  | _ => false

/-- Every delta event in the list carries string text (true of the whole
streaming path; the fallback can violate it with a list-valued body). -/
def deltasAreStr (evs : List Ev) : Bool :=
  evs.all fun e =>
    match e with
    | .delta t => isStrVal t
    | _ => true

theorem joinTexts_isSome (resp : List JVal) (h : ∀ v ∈ resp, isStrVal v = true) :
    ∃ s, joinTexts resp = some s := by
  induction resp with
  | nil => exact ⟨"", rfl⟩
  | cons v rest ih =>
    obtain ⟨s, hs⟩ := ih fun x hx => h x (List.mem_cons_of_mem v hx)
    have hv := h v (List.mem_cons_self v rest)
    cases v with
    | str t =>
      refine ⟨t ++ s, ?_⟩
      simp [joinTexts, hs]
    | null => simp [isStrVal] at hv
    | bool b => simp [isStrVal] at hv
    | num n => simp [isStrVal] at hv
    | arr xs => simp [isStrVal] at hv
    | obj fs => simp [isStrVal] at hv

/-- Consuming a run of deltas followed by an `error` terminal: the handler
forwards the deltas and the error frame and leaves the history untouched,
whatever was queued after the terminal. -/
theorem consumeEvents_error (u : JVal) (hist : List Turn) (m : String) :
    ∀ (pre : List Ev) (resp : List JVal) (rest : List Ev),
      pre.all Ev.isDelta = true →
      consumeEvents u hist resp (pre ++ .error m :: rest) =
        .fin (pre.map evFrame ++ [.error m]) hist := by
  intro pre
  induction pre with
  | nil => intro resp rest _; rfl
  | cons d pre ih =>
    intro resp rest hall
    simp only [List.all_cons, Bool.and_eq_true] at hall
    cases d with
    | delta t =>
      rw [List.cons_append]
      show (match consumeEvents u hist (resp ++ [t]) (pre ++ Ev.error m :: rest) with
        | ExchRes.fin out h2 => ExchRes.fin (OutFrame.delta t :: out) h2
        | ExchRes.stuck out => ExchRes.stuck (OutFrame.delta t :: out)) = _
      rw [ih (resp ++ [t]) rest hall.2]
      rfl
    | done => simp [Ev.isDelta] at hall
    | error m2 => simp [Ev.isDelta] at hall

/-! ## C8: inbound frame size boundary -/

/-- C8: a frame of exactly `max_message_size` characters passes the size
check and is processed exactly like a small frame with the same decoded
payload; a frame one over is answered with the "message too large" error
frame with the history untouched and the handler back at the receive loop,
and this happens whatever `json.loads` would have produced — the payload is
never examined. -/
theorem frame_size_boundary :
    (∀ (present : Bool) (hist : List Turn) (p : Option JVal) (evs : List Ev),
      wsStep present hist ⟨maxMessageSize, p⟩ evs = wsStep present hist ⟨0, p⟩ evs) ∧
    (∀ (present : Bool) (hist : List Turn) (p : Option JVal) (evs : List Ev),
      wsStep present hist ⟨maxMessageSize + 1, p⟩ evs =
        .next hist [.error "訊息過大 (最大 10240 bytes)"]) ∧
    wsStep true [] ⟨maxMessageSize, some (.obj [("type", .str "ping")])⟩ [] =
      .next [] [.pong] :=
  ⟨fun _ _ _ _ => rfl, fun _ _ _ _ => rfl, rfl⟩

/-! ## C10: a `done` with no accumulated delta leaves the session unchanged -/

/-- C10: when the exchange's event stream delivers `done` with no prior
delta (the assistant produced no text), the handler neither appends the
user turn nor an empty assistant turn: the store content is exactly the old
history and only the `done` frame is written. -/
theorem empty_done_leaves_history_unchanged :
    ∀ (present : Bool) (hist : List Turn) (f : Frame) (p : JVal) (u : JVal)
      (rest : List Ev),
      ¬ f.len > maxMessageSize → f.parse = some p → p.isObj = true →
      isStrEq (pyGet p "type") "ping" = false →
      isStrEq (pyGet p "type") "clear_history" = false →
      selectedUser p = some (.ok u) → truthy u = true → present = true →
      wsStep present hist f (.done :: rest) = .next hist [.done] := by
  intro present hist f p u rest hsize hp ho hping hclear hsel htruthy hpresent
  subst hpresent
  rw [wsStep_chat_eq true hist (.done :: rest) f p hsize hp ho hping hclear, hsel]
  simp only [htruthy, not_true, Bool.not_true, reduceIte]
  rfl

/-- A well-formed chat frame asking one user turn `"q"`. -/
def frameQ : Frame := ⟨20, some (chatPayload [.obj [("role", .str "user"), ("content", .str "q")]])⟩

theorem empty_done_witness :
    wsStep true [⟨"user", .str "u"⟩, ⟨"assistant", .str "a"⟩] frameQ [.done] =
      .next [⟨"user", .str "u"⟩, ⟨"assistant", .str "a"⟩] [.done] :=
  empty_done_leaves_history_unchanged true _ frameQ (chatPayload _) (.str "q") []
    (by decide) rfl rfl rfl rfl rfl rfl rfl

/-! ## C5: an exchange ending in `error` mutates nothing and keeps the
connection serving -/

/-- C5: for every accepted chat request whose exchange delivers some deltas
and then an `error` terminal, the handler forwards exactly those frames,
leaves the session history untouched, stays in the receive loop with the
same history, and a subsequent request on the connection is processed
(a `ping` is answered `pong`). -/
theorem error_exchange_preserves_history :
    ∀ (hist : List Turn) (f : Frame) (p u : JVal) (pre rest : List Ev) (m : String),
      ¬ f.len > maxMessageSize → f.parse = some p → p.isObj = true →
      isStrEq (pyGet p "type") "ping" = false →
      isStrEq (pyGet p "type") "clear_history" = false →
      selectedUser p = some (.ok u) → truthy u = true →
      pre.all Ev.isDelta = true →
      wsStep true hist f (pre ++ .error m :: rest) =
        .next hist (pre.map evFrame ++ [.error m]) ∧
      wsStepState (.awaiting hist) (true, ⟨4, some (.obj [("type", .str "ping")])⟩, []) =
        (.awaiting hist, [.pong]) := by
  intro hist f p u pre rest m hsize hp ho hping hclear hsel htruthy hall
  constructor
  · rw [wsStep_chat_eq true hist _ f p hsize hp ho hping hclear, hsel]
    simp only [htruthy, not_true, Bool.not_true, reduceIte]
    rw [consumeEvents_error u hist m pre [] rest hall]
  · rfl

theorem error_exchange_witness :
    wsStep true [⟨"user", .str "u"⟩, ⟨"assistant", .str "a"⟩] frameQ
        [.delta (.str "hi"), .error "connection refused"] =
      .next [⟨"user", .str "u"⟩, ⟨"assistant", .str "a"⟩]
        [.delta (.str "hi"), .error "connection refused"] ∧
      wsStepState (.awaiting [⟨"user", .str "u"⟩, ⟨"assistant", .str "a"⟩])
          (true, ⟨4, some (.obj [("type", .str "ping")])⟩, []) =
        (.awaiting [⟨"user", .str "u"⟩, ⟨"assistant", .str "a"⟩], [.pong]) :=
  error_exchange_preserves_history _ frameQ (chatPayload _) (.str "q")
    [.delta (.str "hi")] [] "connection refused"
    (by decide) rfl rfl rfl rfl rfl rfl rfl

/-! ## C7: which inputs are fatal to the connection -/

/-- A syntactically valid JSON frame whose top level is a list, not a dict:
`payload.get("type")` raises `AttributeError`. -/
def frameNonDict : Frame := ⟨5, some (.arr [.num 1])⟩

/-- C7 counterexample: with the session entry expired from the TTL store, a
chat frame makes `conversation_sessions[session_id]` raise `KeyError`,
which escapes to the handler's outer `except` — the loop exits and the
connection is torn down, not kept open; a decoded non-dict frame does the
same.  So these exchange-level failures are fatal to the connection. -/
theorem expired_session_closes_connection :
    wsStep false [] frameQ [.done] = .closed [] ∧
    wsStep true [] frameNonDict [.done] = .closed [] ∧
    (∀ (h2 : List Turn) (out : List OutFrame), wsStep false [] frameQ [.done] ≠ .next h2 out) := by
  refine ⟨rfl, rfl, ?_⟩
  intro h2 out h
  rw [show wsStep false [] frameQ [.done] = .closed [] from rfl] at h
  cases h

theorem isStrEq_eq (v : JVal) (s : String) (h : isStrEq v s = true) : v = .str s := by
  cases v with
  | str t =>
    simp only [isStrEq, decide_eq_true_eq] at h
    subst h
    rfl
  | null => simp [isStrEq] at h
  | bool b => simp [isStrEq] at h
  | num n => simp [isStrEq] at h
  | arr xs => simp [isStrEq] at h
  | obj fs => simp [isStrEq] at h

theorem consumeEvents_done_fin (u : JVal) (hist : List Turn) (resp : List JVal)
    (rest : List Ev) :
    ∃ out h2, consumeEvents u hist resp (.done :: rest) = .fin out h2 := by
  unfold consumeEvents
  by_cases hresp : resp.isEmpty = true
  · rw [if_pos hresp]
    exact ⟨_, _, rfl⟩
  · rw [if_neg hresp]
    cases joinTexts resp with
    | some s => exact ⟨_, _, rfl⟩
    | none => exact ⟨_, _, rfl⟩

theorem consumeEvents_fin_of_terminal (u : JVal) (hist : List Turn) :
    ∀ (evs : List Ev) (resp : List JVal), (∃ e ∈ evs, e.isTerminal = true) →
      ∃ out h2, consumeEvents u hist resp evs = .fin out h2 := by
  intro evs
  induction evs with
  | nil =>
    intro resp h
    obtain ⟨e, hmem, _⟩ := h
    cases hmem
  | cons e rest ih =>
    intro resp h
    cases e with
    | delta t =>
      obtain ⟨out, h2, hout⟩ := ih (resp ++ [t]) (by
        obtain ⟨e2, hmem, hterm⟩ := h
        rcases List.mem_cons.mp hmem with heq | hmem2
        · subst heq; simp [Ev.isTerminal] at hterm
        · exact ⟨e2, hmem2, hterm⟩)
      refine ⟨.delta t :: out, h2, ?_⟩
      show (match consumeEvents u hist (resp ++ [t]) rest with
        | ExchRes.fin o hh => ExchRes.fin (OutFrame.delta t :: o) hh
        | ExchRes.stuck o => ExchRes.stuck (OutFrame.delta t :: o)) = _
      rw [hout]
    | done => exact consumeEvents_done_fin u hist resp rest
    | error m => exact ⟨[.error m], hist, rfl⟩

/-- C7 amended: no handled input is fatal — an oversized frame, an
undecodable frame, a control frame, a chat with no resolvable user message,
and every exchange whose event stream reaches a terminal all leave the
handler in its receive loop — but a frame whose JSON is not a dict, a
non-dict entry scanned in `messages`, and a chat arriving after the
session entry expired from the TTL store escape to the outer `except` and
tear the connection down (see the counterexample). -/
theorem connection_survives_handled_inputs :
    ∀ (present : Bool) (hist : List Turn) (f : Frame) (evs : List Ev),
      (f.len > maxMessageSize ∨ f.parse = none ∨
        (∃ p, f.parse = some p ∧ p.isObj = true ∧
          (isStrEq (pyGet p "type") "ping" = true ∨
           isStrEq (pyGet p "type") "clear_history" = true ∨
           (isStrEq (pyGet p "type") "ping" = false ∧
            isStrEq (pyGet p "type") "clear_history" = false ∧
            ∃ u, selectedUser p = some (.ok u) ∧
              (truthy u = false ∨
               (present = true ∧ ∃ e ∈ evs, e.isTerminal = true)))))) →
      ∃ h2 out, wsStep present hist f evs = .next h2 out := by
  intro present hist f evs hcase
  obtain ⟨len, parse⟩ := f
  by_cases hsize : len > maxMessageSize
  · refine ⟨hist, [.error ("訊息過大 (最大 " ++ toString maxMessageSize ++ " bytes)")], ?_⟩
    unfold wsStep
    rw [if_pos hsize]
  · rcases hcase with hbig | hnone | ⟨p, hp, ho, hrest⟩
    · exact absurd hbig hsize
    · simp only at hnone
      subst hnone
      refine ⟨hist, [.error "JSON 格式不正確"], ?_⟩
      unfold wsStep
      rw [if_neg hsize]
    · simp only at hp
      subst hp
      rcases hrest with hping | hclear | ⟨hping, hclear, u, hsel, hu⟩
      · refine ⟨hist, [.pong], ?_⟩
        unfold wsStep
        rw [if_neg hsize]
        simp [ho, hping]
      · refine ⟨[], [.historyCleared], ?_⟩
        unfold wsStep
        rw [if_neg hsize]
        by_cases hping2 : isStrEq (pyGet p "type") "ping" = true
        · have h1 := isStrEq_eq _ _ hping2
          have h2 := isStrEq_eq _ _ hclear
          rw [h1] at h2
          simp at h2
        · simp [ho, hping2, hclear]
      · rw [wsStep_chat_eq present hist evs ⟨len, some p⟩ p hsize rfl ho hping hclear, hsel]
        rcases hu with hfalse | ⟨hpres, hterm⟩
        · refine ⟨hist, [.error "缺少使用者訊息"], ?_⟩
          simp [hfalse]
        · subst hpres
          by_cases htr : truthy u = true
          · obtain ⟨out, h2, hce⟩ := consumeEvents_fin_of_terminal u hist evs [] hterm
            refine ⟨h2, out, ?_⟩
            simp [htr, hce]
          · refine ⟨hist, [.error "缺少使用者訊息"], ?_⟩
            simp [htr]

theorem connection_survives_witness :
    ∃ h2 out, wsStep true [] frameQ [.error "boom"] = .next h2 out :=
  connection_survives_handled_inputs true [] frameQ [.error "boom"]
    (Or.inr (Or.inr ⟨chatPayload [.obj [("role", .str "user"), ("content", .str "q")]],
      rfl, rfl,
      Or.inr (Or.inr ⟨rfl, rfl, .str "q", rfl,
        Or.inr ⟨rfl, ⟨.error "boom", List.mem_cons_self _ _, rfl⟩⟩⟩)⟩))

/-! ## C4: the history invariant and the trim bound -/

/-- The claimed session invariant: an even number of turns (user/assistant
pairs), bounded by the configured maximum. -/
def evenBounded (h : List Turn) : Prop :=
  h.length % 2 = 0 ∧ h.length ≤ historyMaxLength

theorem evenBounded_nil : evenBounded [] := by
  simp [evenBounded, historyMaxLength]

/-- Appending one user/assistant pair and trimming preserves the invariant. -/
theorem evenBounded_append_pair (hist : List Turn) (a b : Turn)
    (hh : evenBounded hist) :
    evenBounded
      (if (hist ++ [a, b]).length > historyMaxLength
       then trimHistory (hist ++ [a, b]) else hist ++ [a, b]) := by
  obtain ⟨heven, hle⟩ := hh
  unfold evenBounded trimHistory
  by_cases hl : (hist ++ [a, b]).length > historyMaxLength
  · rw [if_pos hl]
    simp only [List.length_drop, List.length_append, List.length_cons,
      List.length_nil, historyMaxLength] at hl hle ⊢
    omega
  · rw [if_neg hl]
    simp only [List.length_append, List.length_cons, List.length_nil,
      historyMaxLength] at hl hle ⊢
    omega

theorem consumeEvents_fin_evenBounded (u : JVal) (hist : List Turn)
    (hh : evenBounded hist) :
    ∀ (evs : List Ev) (resp : List JVal), deltasAreStr evs = true →
      (∀ v ∈ resp, isStrVal v = true) →
      ∀ out h2, consumeEvents u hist resp evs = .fin out h2 → evenBounded h2 := by
  intro evs
  induction evs with
  | nil =>
    intro resp _ _ out h2 hce
    cases hce
  | cons e rest ih =>
    intro resp hd hresp out h2 hce
    simp only [deltasAreStr, List.all_cons, Bool.and_eq_true] at hd
    have hd2 : deltasAreStr rest = true := hd.2
    cases e with
    | delta t =>
      revert hce
      show (match consumeEvents u hist (resp ++ [t]) rest with
        | ExchRes.fin o hh2 => ExchRes.fin (OutFrame.delta t :: o) hh2
        | ExchRes.stuck o => ExchRes.stuck (OutFrame.delta t :: o)) = .fin out h2 →
        evenBounded h2
      cases hrec : consumeEvents u hist (resp ++ [t]) rest with
      | fin o hh2 =>
        intro hce
        cases hce
        refine ih (resp ++ [t]) hd2 ?_ o h2 hrec
        intro v hv
        rcases List.mem_append.mp hv with hv | hv
        · exact hresp v hv
        · rw [List.mem_singleton.mp hv]
          exact hd.1
      | stuck o =>
        intro hce
        cases hce
    | done =>
      revert hce
      unfold consumeEvents
      by_cases hresp2 : resp.isEmpty = true
      · rw [if_pos hresp2]
        intro hce
        cases hce
        exact hh
      · rw [if_neg hresp2]
        obtain ⟨s, hs⟩ := joinTexts_isSome resp hresp
        rw [hs]
        intro hce
        cases hce
        exact evenBounded_append_pair hist _ _ hh
    | error m =>
      cases hce
      exact hh

/-- Part (1): every `.next` outcome of one handler step preserves the
even-and-bounded invariant, provided all deltas of the exchange carry
string text. -/
theorem wsStep_next_evenBounded :
    ∀ (present : Bool) (hist : List Turn) (f : Frame) (evs : List Ev)
      (h2 : List Turn) (out : List OutFrame),
      evenBounded hist → deltasAreStr evs = true →
      wsStep present hist f evs = .next h2 out → evenBounded h2 := by
  intro present hist f evs h2 out hh hd hstep
  obtain ⟨len, parse⟩ := f
  cases parse with
  | none =>
    simp only [wsStep] at hstep
    split at hstep
    · cases hstep
      exact hh
    · cases hstep
      exact hh
  | some payload =>
    simp only [wsStep] at hstep
    split at hstep
    · cases hstep
      exact hh
    · split at hstep
      · cases hstep
      · split at hstep
        · cases hstep
          exact hh
        · split at hstep
          · cases hstep
            exact evenBounded_nil
          · split at hstep
            · cases hstep
            · split at hstep
              · cases hstep
              · split at hstep
                · cases hstep
                  exact hh
                · split at hstep
                  · cases hstep
                  · split at hstep
                    · cases hstep
                      exact consumeEvents_fin_evenBounded _ hist hh evs [] hd
                        (fun v hv => absurd hv (List.not_mem_nil v)) _ _ (by assumption)
                    · cases hstep

/-- The conditional trim of ws.py lines 130–131 always equals taking the
most recent `historyMaxLength` entries (dropping nothing when short). -/
theorem trim_if_eq (h : List Turn) :
    (if h.length > historyMaxLength then trimHistory h else h) = trimHistory h := by
  by_cases hl : h.length > historyMaxLength
  · rw [if_pos hl]
  · rw [if_neg hl]
    unfold trimHistory
    rw [Nat.sub_eq_zero_of_le (by omega), List.drop_zero]

/-- Trimming an already trimmed prefix commutes with appending. -/
theorem trimHistory_append_trim (a b : List Turn) :
    trimHistory (trimHistory a ++ b) = trimHistory (a ++ b) := by
  unfold trimHistory
  by_cases hle : a.length ≤ historyMaxLength
  · rw [Nat.sub_eq_zero_of_le hle, List.drop_zero]
  · push_neg at hle
    have hlen : (a.drop (a.length - historyMaxLength)).length = historyMaxLength := by
      rw [List.length_drop]
      omega
    rw [List.length_append, List.length_append, hlen]
    by_cases hb : b.length ≤ historyMaxLength
    · have hble : b.length ≤ (a.drop (a.length - historyMaxLength)).length := by
        rw [hlen]
        omega
      have h1 : historyMaxLength + b.length - historyMaxLength = b.length := by omega
      have h2 : a.length + b.length - historyMaxLength ≤ a.length := by omega
      have h3 : a.length - historyMaxLength + b.length =
          a.length + b.length - historyMaxLength := by omega
      rw [h1, List.drop_append_of_le_length hble, List.drop_append_of_le_length h2,
        List.drop_drop, h3]
    · push_neg at hb
      have h1 : historyMaxLength + b.length - historyMaxLength =
          (a.drop (a.length - historyMaxLength)).length + (b.length - historyMaxLength) := by
        rw [hlen]
        omega
      have h2 : a.length + b.length - historyMaxLength =
          a.length + (b.length - historyMaxLength) := by omega
      rw [h1, h2, List.drop_append, List.drop_append]

/-- One successful exchange appending the pair `(u, s)` to the session. -/
def histStep (h : List Turn) (u : JVal) (s : String) : List Turn :=
  trimHistory (h ++ [⟨"user", u⟩, ⟨"assistant", .str s⟩])

/-- A minimal well-formed chat frame with one user entry. -/
def mkChatFrame (u : JVal) : Frame :=
  ⟨2, some (chatPayload [.obj [("role", .str "user"), ("content", u)]])⟩

/-- `historyMaxLength/2` exceeded or not, a chat step on a truthy user turn
whose exchange streams exactly one delta `s` then `done` lands on
`histStep`. -/
theorem wsStep_chat_done (h : List Turn) (u : JVal) (s : String)
    (ht : truthy u = true) :
    wsStep true h (mkChatFrame u) [.delta (.str s), .done] =
      .next (histStep h u s) [.delta (.str s), .done] := by
  rw [wsStep_chat_eq true h [.delta (.str s), .done] (mkChatFrame u)
    (chatPayload [.obj [("role", .str "user"), ("content", u)]])
    (by show ¬ (2 : Nat) > maxMessageSize; decide) rfl rfl rfl rfl]
  rw [show selectedUser (chatPayload [.obj [("role", .str "user"), ("content", u)]]) =
    some (Except.ok u) from rfl]
  have hj : joinTexts [JVal.str s] = some s := by simp [joinTexts]
  simp only [ht, not_true, Bool.not_true, reduceIte, consumeEvents, List.nil_append,
    List.isEmpty_cons, hj, Bool.false_eq_true, trim_if_eq]
  rfl

/-- Iterated chat exchanges through the handler, each a one-delta `done`
stream. -/
def wsChatFold (h : List Turn) : List (JVal × String) → List Turn
  | [] => h
  | (u, s) :: ps =>
    match wsStep true h (mkChatFrame u) [.delta (.str s), .done] with
    | .next h2 _ => wsChatFold h2 ps
    | _ => h

/-- The user/assistant pair sequence of a list of exchanges. -/
def pairsFlat : List (JVal × String) → List Turn
  | [] => []
  | (u, s) :: ps => ⟨"user", u⟩ :: ⟨"assistant", .str s⟩ :: pairsFlat ps

theorem pairsFlat_length (ps : List (JVal × String)) :
    (pairsFlat ps).length = 2 * ps.length := by
  induction ps with
  | nil => rfl
  | cons p ps ih =>
    obtain ⟨u, s⟩ := p
    simp [pairsFlat, ih]
    omega

theorem wsChatFold_spec :
    ∀ (ps : List (JVal × String)) (h acc : List Turn),
      (∀ p ∈ ps, truthy p.1 = true) → h = trimHistory acc →
      wsChatFold h ps = trimHistory (acc ++ pairsFlat ps) := by
  intro ps
  induction ps with
  | nil =>
    intro h acc _ hh
    simpa [wsChatFold, pairsFlat] using hh
  | cons p ps ih =>
    intro h acc hall hh
    obtain ⟨u, s⟩ := p
    have ht : truthy u = true := hall (u, s) (List.mem_cons_self _ _)
    unfold wsChatFold
    rw [wsStep_chat_done h u s ht]
    show wsChatFold (histStep h u s) ps = _
    rw [ih (histStep h u s) (acc ++ [⟨"user", u⟩, ⟨"assistant", .str s⟩])
      (fun q hq => hall q (List.mem_cons_of_mem _ hq))
      (by rw [histStep, hh, trimHistory_append_trim])]
    rw [List.append_assoc]
    rfl

/-- Mid-stream failure; the fallback 200 body's `response` field is a
*list*, which Python slices happily into list-valued deltas. -/
def envListResp : UpEnv :=
  ⟨true, "", .resp 200 "" [] true,
   fun _ => .resp 200 "raw" (some (.obj [("response", .arr [.str "hi"])]))⟩

/-- C4 counterexample: that exchange really produces `delta([..]) , done`;
consuming it appends the user turn (ws.py line 126), then
`"".join(assistant_response)` raises `TypeError` on the list element, the
`except` at line 136 sends one more error frame — and the session is left
with a dangling user turn: length 1, odd, after a completed operation. -/
theorem odd_history_after_list_delta :
    request_stream_sync envListResp = ([.delta (.arr [.str "hi"]), .done], false) ∧
    wsStep true [] frameQ [.delta (.arr [.str "hi"]), .done] =
      .next [⟨"user", .str "q"⟩]
        [.delta (.arr [.str "hi"]), .done, .error "處理回應時發生錯誤"] ∧
    ([⟨"user", .str "q"⟩] : List Turn).length % 2 = 1 :=
  ⟨rfl, rfl, rfl⟩

/-- C4 amended: provided every delta of the exchange carries *string* text
(always true on the streaming path, violable only by a non-string fallback
body), every handler step that returns to the receive loop preserves the
even-length-and-bounded invariant; and after N one-pair exchanges from an
empty session the store holds exactly the most recent pairs — the whole
pair sequence trimmed to its last `history_max_length` entries, so exactly
`history_max_length` entries once 2·N exceeds it. -/
theorem history_even_bounded_and_trimmed :
    (∀ (present : Bool) (hist : List Turn) (f : Frame) (evs : List Ev)
        (h2 : List Turn) (out : List OutFrame),
      evenBounded hist → deltasAreStr evs = true →
      wsStep present hist f evs = .next h2 out → evenBounded h2) ∧
    (∀ ps : List (JVal × String), (∀ p ∈ ps, truthy p.1 = true) →
      wsChatFold [] ps = trimHistory (pairsFlat ps) ∧
      (2 * ps.length > historyMaxLength →
        (wsChatFold [] ps).length = historyMaxLength)) := by
  refine ⟨wsStep_next_evenBounded, ?_⟩
  intro ps hall
  have hfold := wsChatFold_spec ps [] [] hall rfl
  rw [List.nil_append] at hfold
  refine ⟨hfold, ?_⟩
  intro hgt
  rw [hfold]
  unfold trimHistory
  rw [List.length_drop, pairsFlat_length]
  omega

/-- Eleven exchanges: 22 turns produced, the most recent 20 retained. -/
def psEleven : List (JVal × String) := List.replicate 11 (JVal.str "u", "a")

theorem history_even_bounded_witness :
    evenBounded [⟨"user", .str "q"⟩, ⟨"assistant", .str "hi"⟩] ∧
    wsChatFold [] psEleven = trimHistory (pairsFlat psEleven) ∧
    (wsChatFold [] psEleven).length = historyMaxLength :=
  ⟨history_even_bounded_and_trimmed.1 true [] frameQ [.delta (.str "hi"), .done]
      [⟨"user", .str "q"⟩, ⟨"assistant", .str "hi"⟩] [.delta (.str "hi"), .done]
      ⟨rfl, by decide⟩ rfl rfl,
   (history_even_bounded_and_trimmed.2 psEleven
      (fun p hp => by rw [List.eq_of_mem_replicate hp]; rfl)).1,
   (history_even_bounded_and_trimmed.2 psEleven
      (fun p hp => by rw [List.eq_of_mem_replicate hp]; rfl)).2 (by decide)⟩
